import Mathlib

/-!
Verification of the arithmetization layer of the Winterfell STARK framework
(crate `common`). The crate root `src/common/src/lib.rs` declares the `air`
module (exporting `Air`, `AirContext`, `Assertion`, `ConstraintDivisor`,
`BoundaryConstraintGroup`, `ConstraintCompositionCoefficients`,
`EvaluationFrame`, `TraceInfo`, `TransitionConstraintDegree`, ...) but the
module body is not part of the sources; the definitions below therefore model
those components from the specification, and the documentation comments in
`lib.rs` itself.
-/

namespace Winterfell

/-- Modelled from the spec: the Trace Descriptor (`TraceInfo`, exported by the
missing `air` module) — shape metadata for an execution trace: width and
length. -/
structure TraceInfo where
  width : Nat
  length : Nat
deriving DecidableEq, Repr

/-- Modelled from the spec: Proof Parameters (`ProofOptions`) — the
soundness/performance knobs consumed, not computed, by this layer. -/
structure ProofOptions where
  blowup_factor : Nat
  num_queries : Nat
  grinding_bits : Nat
  field_extension_degree : Nat
deriving DecidableEq, Repr

/-- Modelled from the spec: `TransitionConstraintDegree` (missing `air`
module) — base polynomial degree plus the cycle lengths of periodic columns
multiplied into the constraint. -/
structure TransitionConstraintDegree where
  base : Nat
  cycles : List Nat
deriving DecidableEq, Repr

/-- Modelled from the spec: the degree a constraint contributes when computing
the maximum constraint degree — `degree.base + sum(1 for each cycle)`
(each periodic column approximated as a degree-1 contribution). -/
def TransitionConstraintDegree.degree (d : TransitionConstraintDegree) : Nat :=
  d.base + d.cycles.length

/-- Modelled from the spec: the maximum transition-constraint degree over a
list of constraint degrees. -/
def maxConstraintDegree (degrees : List TransitionConstraintDegree) : Nat :=
  (degrees.map TransitionConstraintDegree.degree).foldr max 0

/-- Doubling search for the smallest power of two that is at least `target`,
starting from the power `p` with the given amount of fuel. -/
def nextPowTwoGo (target : Nat) : Nat → Nat → Nat
  | 0, p => p
  | fuel + 1, p => if target ≤ p then p else nextPowTwoGo target fuel (2 * p)

/-- Modelled from the spec: the smallest power of two that is greater than or
equal to `n` (used for `ce_blowup_factor`). -/
def nextPowTwo (n : Nat) : Nat :=
  nextPowTwoGo n n 1

/-- Modelled from the spec: the configuration-error taxonomy — all detected at
Computation Context or Assertion-set construction. -/
inductive ConfigError where
  | emptyConstraintDegrees
  | degreeTooHigh
  | zeroAssertions
  | duplicateAssertion
deriving DecidableEq, Repr

/-- Modelled from the spec: the Computation Context (`AirContext`, missing
`air` module) — aggregates trace shape, constraint degrees, proof parameters
and assertion count, and caches every derived quantity. -/
structure AirContext where
  trace_info : TraceInfo
  options : ProofOptions
  num_assertions : Nat
  trace_poly_degree : Nat
  max_constraint_degree : Nat
  composition_degree : Nat
  ce_blowup_factor : Nat
  lde_domain_size : Nat
deriving DecidableEq, Repr

/-- Modelled from the spec: Computation Context construction — computes
`trace_poly_degree = trace_length - 1`, the maximum constraint degree,
`composition_degree = max_constraint_degree * blowup_factor - 1` and
`ce_blowup_factor = smallest power of two >= max_constraint_degree`; fails
with a configuration error if `ce_blowup_factor > blowup_factor` or if the
assertion count is zero. -/
def AirContext.new (trace_info : TraceInfo)
    (degrees : List TransitionConstraintDegree) (options : ProofOptions)
    (num_assertions : Nat) : Except ConfigError AirContext :=
  if degrees = [] then
    .error .emptyConstraintDegrees
  else
    let mcd := maxConstraintDegree degrees
    let ce := nextPowTwo mcd
    if options.blowup_factor < ce then
      .error .degreeTooHigh
    else if num_assertions = 0 then
      .error .zeroAssertions
    else
      .ok { trace_info := trace_info
            options := options
            num_assertions := num_assertions
            trace_poly_degree := trace_info.length - 1
            max_constraint_degree := mcd
            composition_degree := mcd * options.blowup_factor - 1
            ce_blowup_factor := ce
            lde_domain_size := trace_info.length * options.blowup_factor }

/-- Modelled from the spec: `Assertion` (missing `air` module) — a declarative
claim about specific trace cells; three variants: single point, periodic, and
explicit sequence. -/
inductive Assertion (F : Type) where
  | single (register step : Nat) (value : F)
  | periodic (register first_step stride : Nat) (value : F)
  | sequence (register first_step stride : Nat) (values : List F)
deriving DecidableEq

/-- Modelled from the spec: expansion of a run of asserted values starting at
`first_step` with the given stride into (register, step, value) triples —
steps `first_step, first_step + stride, ...`. -/
def expandRun {F : Type} (register first_step stride : Nat) :
    List F → List (Nat × Nat × F)
  | [] => []
  | v :: vs => (register, first_step, v) :: expandRun register (first_step + stride) stride vs

/-- Modelled from the spec: conceptual expansion of an assertion into the
(register, step, value) cells it constrains, relative to a trace of length
`n`. A Single assertion constrains one cell; a Periodic assertion constrains
`n / stride` cells with the same value; a Sequence assertion constrains one
cell per provided value. -/
def Assertion.expand {F : Type} (n : Nat) : Assertion F → List (Nat × Nat × F)
  | .single r s v => [(r, s, v)]
  | .periodic r fs st v => expandRun r fs st (List.replicate (n / st) v)
  | .sequence r fs st vals => expandRun r fs st vals

/-- Modelled from the spec: all cells constrained by a list of assertions. -/
def expandAll {F : Type} (n : Nat) (asserts : List (Assertion F)) :
    List (Nat × Nat × F) :=
  (asserts.map (Assertion.expand n)).flatten

/-- Modelled from the spec: the `(first_step, stride)` key of an assertion —
a Single assertion constrains one point per trace, i.e. stride equal to the
trace length. -/
def assertionKey {F : Type} (n : Nat) : Assertion F → Nat × Nat
  | .single _ s _ => (s, n)
  | .periodic _ fs st _ => (fs, st)
  | .sequence _ fs st _ => (fs, st)

/-- Modelled from the spec: the degree of a boundary divisor for a given
stride — `trace_length / stride`. -/
def boundaryDivisorDegree (n stride : Nat) : Nat :=
  n / stride

/-- Modelled from the spec: boundary Constraint Divisor construction — one
divisor per distinct `(first_step, stride)` pair appearing among assertions,
listed as `(first_step, stride, degree)`. -/
def boundaryDivisors {F : Type} [DecidableEq F] (n : Nat)
    (asserts : List (Assertion F)) : List (Nat × Nat × Nat) :=
  ((asserts.map (assertionKey n)).dedup).map
    (fun k => (k.1, k.2, boundaryDivisorDegree n k.2))

/-- Modelled from the spec: duplicate-checking over the expanded assertion
cells — a conflict is two constrained cells with the same (register, step)
but different values. -/
def hasConflict {F : Type} [DecidableEq F] (n : Nat)
    (asserts : List (Assertion F)) : Bool :=
  let cells := expandAll n asserts
  cells.any (fun a => cells.any (fun b =>
    a.1 == b.1 && a.2.1 == b.2.1 && !(a.2.2 == b.2.2)))

/-- Modelled from the spec: assertion-set validation at construction time —
no two assertions may constrain the same (register, step) pair with
different values. -/
def validateAssertions {F : Type} [DecidableEq F] (n : Nat)
    (asserts : List (Assertion F)) : Except ConfigError Unit :=
  if hasConflict n asserts then .error .duplicateAssertion else .ok ()

/-- Modelled from the spec: the Evaluation Frame (missing `air` module) — the
minimal window of trace state (current and next row) exposed to the
transition-evaluation routine. -/
structure EvaluationFrame (F : Type) where
  current : List F
  next : List F

/-- Modelled from the spec: evaluation of the transition Constraint Divisor
in its product form `(X - g^0)(X - g^1)...(X - g^(n-2))`, i.e.
`(X^n - 1) / (X - g^(n-1))`, at a point `x`; it vanishes at every trace step
except the last. -/
def transitionDivisorEval {F : Type} [Field F] (g : F) (n : Nat) (x : F) : F :=
  ((List.range (n - 1)).map (fun i => x - g ^ i)).prod

/-- Modelled from the spec: the degree of the transition Constraint Divisor —
`trace_length - 1`. -/
def transitionDivisorDegree (n : Nat) : Nat :=
  n - 1

/-- Modelled from the spec: per-step slice of periodic-column values supplied
to `evaluate_transition` — the value of each periodic column at the current
step of the computation; a column of cycle length `c` repeats with period
`c`. -/
def periodicValuesAt {F : Type} [Inhabited F] (columns : List (List F))
    (step : Nat) : List F :=
  columns.map (fun col => col.getD (step % col.length) default)

/-- Modelled from the spec: the default `get_periodic_column_values` — an
empty sequence of periodic columns. -/
def defaultPeriodicColumns (F : Type) : List (List F) := []

/-- Modelled from the spec: `ConstraintCompositionCoefficients` (missing
`air` module) — one coefficient pair per transition constraint and one per
boundary constraint group. -/
structure ConstraintCompositionCoefficients (F : Type) where
  transition : List (F × F)
  boundary : List (F × F)
deriving DecidableEq

/-- Modelled from the spec: deterministic derivation of the
constraint-composition coefficient pairs from a public random seed — `t + b`
pairs drawn sequentially from the seed via the transcript collaborator's
pseudorandom extraction `draw`, the first `t` for transition constraints and
the next `b` for boundary constraint groups. -/
def constraintCoeffs {S F : Type} (draw : S → Nat → F × F) (seed : S)
    (t b : Nat) : ConstraintCompositionCoefficients F :=
  { transition := (List.range t).map (draw seed)
    boundary := (List.range b).map (fun i => draw seed (t + i)) }

instance : Fact (Nat.Prime 17) := ⟨by norm_num⟩

instance : Fact (Nat.Prime 97) := ⟨by norm_num⟩

/-- Modelled from the spec: the per-register pair list of a Boundary
Constraint Group — the (step, value) cells a given register's assertions
constrain, in expansion order. -/
def groupPairsFor {F : Type} [DecidableEq F] (n : Nat)
    (asserts : List (Assertion F)) (r : Nat) : List (Nat × F) :=
  (expandAll n asserts).filterMap
    (fun c => if c.1 = r then some c.2 else none)

/-- Modelled from the spec: `BoundaryConstraintGroup` (missing `air`
module) — the constraints of one register sharing one divisor; the group is
determined by the register and its constrained (step, value) cells, from
which divisor degree, divisor evaluation and combined evaluation are all
derived. -/
structure BoundaryConstraintGroup (F : Type) where
  register : Nat
  pairs : List (Nat × F)
deriving DecidableEq

/-- Modelled from the spec: derivation of the Boundary Constraint Group of
register `r` from an assertion list. -/
def buildBoundaryGroup {F : Type} [DecidableEq F] (n : Nat)
    (asserts : List (Assertion F)) (r : Nat) : BoundaryConstraintGroup F :=
  { register := r, pairs := groupPairsFor n asserts r }

/-- Modelled from the spec: the degree of a Boundary Constraint Group's
divisor — one vanishing point per constrained cell. -/
def BoundaryConstraintGroup.divisorDegree {F : Type}
    (grp : BoundaryConstraintGroup F) : Nat :=
  grp.pairs.length

/-- Modelled from the spec: evaluation of a Boundary Constraint Group's
divisor at a point — the product of `(x - g^step)` over the group's
constrained steps. -/
def BoundaryConstraintGroup.divisorEval {F : Type} [Field F] (g : F)
    (grp : BoundaryConstraintGroup F) (x : F) : F :=
  (grp.pairs.map (fun c => x - g ^ c.1)).prod

/-- Modelled from the spec: Lagrange evaluation at `x` of the polynomial
interpolating the given (point, value) pairs. -/
def lagrangeEval {F : Type} [Field F] [DecidableEq F]
    (pts : List (F × F)) (x : F) : F :=
  (pts.map (fun p => p.2 *
    ((pts.filter (fun q => q.1 ≠ p.1)).map
      (fun q => (x - q.1) / (p.1 - q.1))).prod)).sum

/-- Modelled from the spec: the combined evaluation of a Boundary Constraint
Group at a sampled point `x` — the register's trace polynomial value minus
the polynomial interpolating the asserted values over the divisor's
vanishing set. -/
def BoundaryConstraintGroup.combinedEval {F : Type} [Field F] [DecidableEq F]
    (g : F) (grp : BoundaryConstraintGroup F) (p : F → F) (x : F) : F :=
  p x - lagrangeEval (grp.pairs.map (fun c => (g ^ c.1, c.2))) x

/-- The set of Single assertions equivalent to a Sequence assertion: one
Single per value, at steps `first_step, first_step + stride, ...` for the
same register. -/
def singlesOf {F : Type} (r fs st : Nat) : List F → List (Assertion F)
  | [] => []
  | v :: vs => .single r fs v :: singlesOf r (fs + st) st vs

/-- Modelled from the spec: the concrete scenario computation of the spec —
trace width 1 with the single transition constraint `next = current + 1`,
evaluated over an Evaluation Frame as `next - (current + 1)`, one result
entry per transition constraint. -/
def exampleEvaluateTransition {F : Type} [Field F]
    (frame : EvaluationFrame F) : List F :=
  [frame.next.headD 0 - (frame.current.headD 0 + 1)]

/-- Modelled from the spec: the Evaluation Frame exposing rows `i` and
`i + 1` of a width-1 execution trace. -/
def frameAt {F : Type} [Field F] (trace : List F) (i : Nat) :
    EvaluationFrame F :=
  { current := [trace.getD i 0], next := [trace.getD (i + 1) 0] }

/-- The doubling search reaches a power of two at least the target,
minimally, whenever the fuel suffices. -/
theorem nextPowTwoGo_spec (target : Nat) : ∀ (fuel p : Nat),
    target ≤ 2 ^ fuel * p →
    ∃ j, nextPowTwoGo target fuel p = 2 ^ j * p ∧ target ≤ 2 ^ j * p ∧
      ∀ i, target ≤ 2 ^ i * p → j ≤ i := by
  intro fuel
  induction fuel with
  | zero =>
    intro p hr
    exact ⟨0, by simp [nextPowTwoGo], by simpa using hr,
      fun i _ => Nat.zero_le i⟩
  | succ fuel ih =>
    intro p hr
    by_cases h : target ≤ p
    · exact ⟨0, by simp [nextPowTwoGo, h], by simpa using h,
        fun i _ => Nat.zero_le i⟩
    · have hr2 : target ≤ 2 ^ fuel * (2 * p) := by
        have e : 2 ^ (fuel + 1) * p = 2 ^ fuel * (2 * p) := by ring
        omega
      obtain ⟨j, hgo, hle, hmin⟩ := ih (2 * p) hr2
      refine ⟨j + 1, ?_, ?_, ?_⟩
      · rw [nextPowTwoGo, if_neg h, hgo]; ring
      · have e : 2 ^ (j + 1) * p = 2 ^ j * (2 * p) := by ring
        omega
      · intro i hi
        cases i with
        | zero => simp at hi; omega
        | succ i =>
          have e : 2 ^ (i + 1) * p = 2 ^ i * (2 * p) := by ring
          exact Nat.succ_le_succ (hmin i (by omega))

/-- `nextPowTwo n` is the smallest power of two that is at least `n`. -/
theorem nextPowTwo_spec (n : Nat) :
    ∃ k, nextPowTwo n = 2 ^ k ∧ n ≤ 2 ^ k ∧
      ∀ m, n ≤ 2 ^ m → 2 ^ k ≤ 2 ^ m := by
  obtain ⟨j, hgo, hle, hmin⟩ := nextPowTwoGo_spec n n 1
    (by simpa using (Nat.lt_two_pow n).le)
  exact ⟨j, by simpa [nextPowTwo] using hgo, by simpa using hle,
    fun m hm => Nat.pow_le_pow_right (by norm_num) (hmin m (by simpa using hm))⟩

/-- C3: Computation Context construction succeeds exactly when
`blowup_factor` is at least `ce_blowup_factor` (given nonempty constraint
degrees and a positive assertion count), fails with the degree-configuration
error when it is smaller, and in particular fails for `blowup_factor = 2`
with a transition constraint of base degree 4. -/
theorem air_context_blowup_check (trace_info : TraceInfo)
    (degrees : List TransitionConstraintDegree) (options : ProofOptions)
    (na : Nat) (hdeg : degrees ≠ []) (hna : 0 < na) :
    ((AirContext.new trace_info degrees options na).isOk ↔
      nextPowTwo (maxConstraintDegree degrees) ≤ options.blowup_factor) ∧
    (options.blowup_factor < nextPowTwo (maxConstraintDegree degrees) →
      AirContext.new trace_info degrees options na =
        .error .degreeTooHigh) ∧
    (∀ (t : TraceInfo) (opts : ProofOptions) (na2 : Nat),
      opts.blowup_factor = 2 →
      AirContext.new t [⟨4, []⟩] opts na2 = .error .degreeTooHigh) := by
  refine ⟨?_, ?_, ?_⟩
  · by_cases h : options.blowup_factor < nextPowTwo (maxConstraintDegree degrees)
    · simp [AirContext.new, hdeg, h, Except.isOk, Except.toBool]
    · simp [AirContext.new, hdeg, h, hna.ne', Except.isOk, Except.toBool]
      omega
  · intro h
    simp [AirContext.new, hdeg, h]
  · intro t opts na2 hopt
    have hm : maxConstraintDegree [(⟨4, []⟩ : TransitionConstraintDegree)] = 4 := by
      simp [maxConstraintDegree, TransitionConstraintDegree.degree]
    have hce : nextPowTwo 4 = 4 := by decide
    simp [AirContext.new, hm, hce, hopt]

/-- Witness for C3 at a concrete trace shape, constraint degree list, proof
parameters and assertion count. -/
theorem air_context_blowup_check_witness :
    (AirContext.new ⟨1, 8⟩ [⟨1, []⟩] ⟨8, 32, 0, 1⟩ 1).isOk ↔
      nextPowTwo (maxConstraintDegree [⟨1, []⟩]) ≤ 8 :=
  (air_context_blowup_check ⟨1, 8⟩ [⟨1, []⟩] ⟨8, 32, 0, 1⟩ 1
    (by decide) (by decide)).1

/-- C4: Computation construction fails with a configuration error when the
assertion count is zero, so a successfully built context always has a
positive assertion count (`get_assertions` must have returned a non-empty
sequence). -/
theorem air_context_zero_assertions (trace_info : TraceInfo)
    (degrees : List TransitionConstraintDegree) (options : ProofOptions)
    (hdeg : degrees ≠ [])
    (hblow : nextPowTwo (maxConstraintDegree degrees) ≤
      options.blowup_factor) :
    AirContext.new trace_info degrees options 0 =
      .error .zeroAssertions ∧
    (∀ na, (AirContext.new trace_info degrees options na).isOk → 0 < na) := by
  constructor
  · simp [AirContext.new, hdeg, Nat.not_lt.mpr hblow]
  · intro na hok
    by_contra hna
    have hna0 : na = 0 := by omega
    subst hna0
    simp [AirContext.new, hdeg, Nat.not_lt.mpr hblow, Except.isOk,
      Except.toBool] at hok

/-- Witness for C4 at a concrete trace shape, constraint degree list and
proof parameters. -/
theorem air_context_zero_assertions_witness :
    AirContext.new ⟨1, 8⟩ [⟨1, []⟩] ⟨8, 32, 0, 1⟩ 0 =
      .error .zeroAssertions :=
  (air_context_zero_assertions ⟨1, 8⟩ [⟨1, []⟩] ⟨8, 32, 0, 1⟩
    (by decide) (by decide)).1

/-- C6: every successfully built Computation Context has
`composition_degree = max_constraint_degree * blowup_factor - 1`, and its
`ce_blowup_factor` is the smallest power of two at least
`max_constraint_degree`. -/
theorem air_context_degrees (trace_info : TraceInfo)
    (degrees : List TransitionConstraintDegree) (options : ProofOptions)
    (na : Nat) (ctx : AirContext)
    (h : AirContext.new trace_info degrees options na = .ok ctx) :
    ctx.composition_degree =
      maxConstraintDegree degrees * options.blowup_factor - 1 ∧
    ctx.ce_blowup_factor = nextPowTwo (maxConstraintDegree degrees) ∧
    (∃ k, ctx.ce_blowup_factor = 2 ^ k) ∧
    maxConstraintDegree degrees ≤ ctx.ce_blowup_factor ∧
    (∀ m, maxConstraintDegree degrees ≤ 2 ^ m →
      ctx.ce_blowup_factor ≤ 2 ^ m) := by
  by_cases hdeg : degrees = []
  · simp [AirContext.new, hdeg] at h
  by_cases hblow : options.blowup_factor <
    nextPowTwo (maxConstraintDegree degrees)
  · simp [AirContext.new, hdeg, hblow] at h
  by_cases hna : na = 0
  · simp [AirContext.new, hdeg, hblow, hna] at h
  have hctx : ctx = ⟨trace_info, options, na, trace_info.length - 1,
      maxConstraintDegree degrees,
      maxConstraintDegree degrees * options.blowup_factor - 1,
      nextPowTwo (maxConstraintDegree degrees),
      trace_info.length * options.blowup_factor⟩ := by
    simp [AirContext.new, hdeg, hblow, hna] at h
    exact h.symm
  obtain ⟨k, hk, hkle, hkmin⟩ := nextPowTwo_spec (maxConstraintDegree degrees)
  subst hctx
  refine ⟨rfl, rfl, ⟨k, hk⟩, ?_, ?_⟩
  · show maxConstraintDegree degrees ≤ nextPowTwo (maxConstraintDegree degrees)
    rw [hk]; exact hkle
  · intro m hm
    show nextPowTwo (maxConstraintDegree degrees) ≤ 2 ^ m
    rw [hk]; exact hkmin m hm

/-- Witness for C6 at a concretely built context. -/
theorem air_context_degrees_witness :
    (⟨⟨1, 8⟩, ⟨8, 32, 0, 1⟩, 1, 7, 2, 15, 2, 64⟩ :
        AirContext).composition_degree =
      maxConstraintDegree [⟨2, []⟩] * (8 : Nat) - 1 :=
  (air_context_degrees ⟨1, 8⟩ [⟨2, []⟩] ⟨8, 32, 0, 1⟩ 1
    ⟨⟨1, 8⟩, ⟨8, 32, 0, 1⟩, 1, 7, 2, 15, 2, 64⟩ rfl).1

/-- C10: for a computation defining no periodic columns (the default empty
sequence), the periodic-values slice passed to every invocation of
`evaluate_transition` is empty (length 0), never padded to nonempty
values. -/
theorem periodic_values_default_empty {F : Type} [Inhabited F] (step : Nat) :
    periodicValuesAt (defaultPeriodicColumns F) step = [] ∧
    (periodicValuesAt (defaultPeriodicColumns F) step).length = 0 := by
  constructor <;> rfl

/-- C2: coefficient derivation is deterministic — identical seed and counts
yield identical coefficient-pair sequences — and changing either count
changes the derived coefficients (the structures differ). -/
theorem constraint_coeffs_deterministic {S F : Type}
    (draw : S → Nat → F × F) (s1 s2 : S) (t b t2 b2 : Nat) :
    (s1 = s2 → constraintCoeffs draw s1 t b = constraintCoeffs draw s2 t b) ∧
    ((t, b) ≠ (t2, b2) →
      constraintCoeffs draw s1 t b ≠ constraintCoeffs draw s1 t2 b2) := by
  constructor
  · intro h; rw [h]
  · intro hne heq
    apply hne
    have ht := congrArg (fun c => c.transition.length) heq
    have hb := congrArg (fun c => c.boundary.length) heq
    simp only [constraintCoeffs, List.length_map, List.length_range] at ht hb
    simp [ht, hb]

/-- Witness for C2 at a concrete extraction function, seed and counts. -/
theorem constraint_coeffs_deterministic_witness :
    constraintCoeffs (fun (_ : Unit) i => ((i : ZMod 97), (i : ZMod 97)))
        () 2 1 ≠
      constraintCoeffs (fun (_ : Unit) i => ((i : ZMod 97), (i : ZMod 97)))
        () 1 1 :=
  (constraint_coeffs_deterministic
    (fun (_ : Unit) i => ((i : ZMod 97), (i : ZMod 97))) () () 2 1 1 1).2
    (by decide)

/-- C5: the transition divisor is shared by all transition constraints with
degree `trace_length - 1`; it vanishes at every trace-domain point `g^i` for
`i < trace_length - 1` and does not vanish at the final step
`g^(trace_length - 1)`. -/
theorem transition_divisor_spec {F : Type} [Field F] (g : F) (n : Nat)
    (hinj : ∀ i < n, ∀ j < n, g ^ i = g ^ j → i = j) :
    transitionDivisorDegree n = n - 1 ∧
    (∀ i < n - 1, transitionDivisorEval g n (g ^ i) = 0) ∧
    (0 < n → transitionDivisorEval g n (g ^ (n - 1)) ≠ 0) := by
  refine ⟨rfl, ?_, ?_⟩
  · intro i hi
    apply List.prod_eq_zero
    refine List.mem_map.mpr ⟨i, List.mem_range.mpr hi, ?_⟩
    exact sub_self _
  · intro hn hzero
    unfold transitionDivisorEval at hzero
    rw [List.prod_eq_zero_iff] at hzero
    obtain ⟨i, hi, hfac⟩ := List.mem_map.mp hzero
    rw [List.mem_range] at hi
    have hgi : g ^ (n - 1) = g ^ i := sub_eq_zero.mp hfac
    have := hinj (n - 1) (Nat.sub_lt hn Nat.one_pos) i
      (lt_of_lt_of_le hi (Nat.sub_le n 1)) hgi
    omega

/-- Witness for C5 over the field with 17 elements, where 2 generates the
trace domain of length 8. -/
theorem transition_divisor_spec_witness :
    transitionDivisorEval (2 : ZMod 17) 8 ((2 : ZMod 17) ^ 3) = 0 ∧
    transitionDivisorEval (2 : ZMod 17) 8 ((2 : ZMod 17) ^ 7) ≠ 0 :=
  ⟨(transition_divisor_spec (2 : ZMod 17) 8 (by decide)).2.1 3 (by decide),
   (transition_divisor_spec (2 : ZMod 17) 8 (by decide)).2.2 (by decide)⟩

/-- C1: for the spec's concrete computation (`next = current + 1`), every
consecutive row pair of a valid trace evaluates all transition constraints
to the additive identity, and a row pair of the invalid trace
`[1,2,3,5,5,6,7,8]` (one cell mutated) has a non-zero entry in the result
buffer. -/
theorem evaluate_transition_valid_zero_invalid_nonzero {F : Type} [Field F] :
    (∀ (trace : List F),
      (∀ i < trace.length - 1, trace.getD (i + 1) 0 = trace.getD i 0 + 1) →
      ∀ i < trace.length - 1,
        exampleEvaluateTransition (frameAt trace i) = [0]) ∧
    (∃ e ∈ exampleEvaluateTransition
        (frameAt ([1, 2, 3, 5, 5, 6, 7, 8] : List F) 2), e ≠ 0) := by
  constructor
  · intro trace hv i hi
    have h := hv i hi
    simp only [List.getD_eq_getElem?_getD] at h
    simp [exampleEvaluateTransition, frameAt, h]
  · refine ⟨1, ?_, one_ne_zero⟩
    simp [exampleEvaluateTransition, frameAt]
    norm_num

/-- Witness for C1: the valid trace `[1,...,8]` over the field with 97
elements evaluates the transition constraint to zero at the row pair
`(2, 3)`. -/
theorem evaluate_transition_valid_zero_invalid_nonzero_witness :
    exampleEvaluateTransition
      (frameAt ([1, 2, 3, 4, 5, 6, 7, 8] : List (ZMod 97)) 2) = [0] :=
  (evaluate_transition_valid_zero_invalid_nonzero (F := ZMod 97)).1
    [1, 2, 3, 4, 5, 6, 7, 8] (by decide) 2 (by decide)

/-- C8: an assertion list containing two assertions that constrain the same
(register, step) pair with different values fails validation at construction
time with a duplicate-assertion error; two assertions at the same pair with
identical values validate successfully. -/
theorem duplicate_assertion_check {F : Type} [DecidableEq F] (n : Nat)
    (asserts : List (Assertion F)) (r s : Nat) (v w : F)
    (hv : Assertion.single r s v ∈ asserts)
    (hw : Assertion.single r s w ∈ asserts) (hne : v ≠ w) :
    validateAssertions n asserts = .error .duplicateAssertion ∧
    (∀ (r2 s2 : Nat) (u : F),
      validateAssertions n
        [Assertion.single r2 s2 u, Assertion.single r2 s2 u] = .ok ()) := by
  constructor
  · have hcv : (r, s, v) ∈ expandAll n asserts := by
      refine List.mem_flatten.mpr ⟨[(r, s, v)], ?_, by simp⟩
      exact List.mem_map.mpr ⟨Assertion.single r s v, hv, rfl⟩
    have hcw : (r, s, w) ∈ expandAll n asserts := by
      refine List.mem_flatten.mpr ⟨[(r, s, w)], ?_, by simp⟩
      exact List.mem_map.mpr ⟨Assertion.single r s w, hw, rfl⟩
    have hc : hasConflict n asserts = true := by
      unfold hasConflict
      rw [List.any_eq_true]
      refine ⟨(r, s, v), hcv, ?_⟩
      rw [List.any_eq_true]
      exact ⟨(r, s, w), hcw, by simp [hne]⟩
    simp [validateAssertions, hc]
  · intro r2 s2 u
    simp [validateAssertions, hasConflict, expandAll, Assertion.expand,
      expandRun]

/-- Witness for C8: two assertions at register 0, step 0 with values 1 and 2
over the field with 97 elements are rejected. -/
theorem duplicate_assertion_check_witness :
    validateAssertions 8 [Assertion.single 0 0 (1 : ZMod 97),
        Assertion.single 0 0 (2 : ZMod 97)] = .error .duplicateAssertion :=
  (duplicate_assertion_check 8
    [Assertion.single 0 0 (1 : ZMod 97), Assertion.single 0 0 (2 : ZMod 97)]
    0 0 1 2 (by decide) (by decide) (by decide)).1

/-- C9: boundary divisors are constructed once per distinct
`(first_step, stride)` pair, each with degree `trace_length / stride`, every
assertion's pair is covered, and a single assertion with stride equal to the
trace length yields one divisor of degree 1 rather than an error. -/
theorem boundary_divisor_spec {F : Type} [DecidableEq F] (n : Nat)
    (asserts : List (Assertion F)) (hn : 0 < n) :
    ((asserts.map (assertionKey n)).dedup).Nodup ∧
    (∀ e ∈ boundaryDivisors n asserts,
      e.2.2 = boundaryDivisorDegree n e.2.1) ∧
    (∀ a ∈ asserts, ∃ e ∈ boundaryDivisors n asserts,
      (e.1, e.2.1) = assertionKey n a) ∧
    (∀ (r fs : Nat) (v : F),
      boundaryDivisors n [Assertion.single r fs v] = [(fs, n, 1)]) := by
  refine ⟨List.nodup_dedup _, ?_, ?_, ?_⟩
  · intro e he
    obtain ⟨k, _, hk⟩ := List.mem_map.mp he
    rw [← hk]
  · intro a ha
    refine ⟨((assertionKey n a).1, (assertionKey n a).2,
      boundaryDivisorDegree n (assertionKey n a).2), ?_, rfl⟩
    refine List.mem_map.mpr ⟨assertionKey n a, ?_, rfl⟩
    exact List.mem_dedup.mpr (List.mem_map.mpr ⟨a, ha, rfl⟩)
  · intro r fs v
    simp [boundaryDivisors, assertionKey, boundaryDivisorDegree,
      Nat.div_self hn]

/-- Witness for C9: a single assertion at register 0, step 0 with stride 8
on a trace of length 8 yields one divisor of degree 1. -/
theorem boundary_divisor_spec_witness :
    boundaryDivisors 8 [Assertion.single 0 0 (1 : ZMod 97)] =
      [(0, 8, 1)] :=
  (boundary_divisor_spec 8 [Assertion.single 0 0 (1 : ZMod 97)]
    (by decide)).2.2.2 0 0 1

/-- Expanding the equivalent Single assertions yields the same constrained
cells as expanding the run directly. -/
theorem expandAll_singlesOf {F : Type} (n r st : Nat) (vals : List F) :
    ∀ fs, expandAll n (singlesOf r fs st vals) = expandRun r fs st vals := by
  induction vals with
  | nil => intro fs; rfl
  | cons v vs ih =>
    intro fs
    have hsplit : expandAll n
        (Assertion.single r fs v :: singlesOf r (fs + st) st vs) =
        Assertion.expand n (Assertion.single r fs v) ++
          expandAll n (singlesOf r (fs + st) st vs) := by
      simp [expandAll]
    rw [singlesOf, hsplit, ih (fs + st)]
    simp [Assertion.expand, expandRun]

/-- A Sequence assertion expands to exactly its run of cells. -/
theorem expandAll_sequence {F : Type} (n r fs st : Nat) (vals : List F) :
    expandAll n [Assertion.sequence r fs st vals] = expandRun r fs st vals := by
  simp [expandAll, Assertion.expand]

/-- Restricting an expanded run to its own register keeps one (step, value)
pair per value. -/
theorem expandRun_filter_length {F : Type} (r st : Nat) (vals : List F) :
    ∀ fs, ((expandRun r fs st vals).filterMap
      (fun c => if c.1 = r then some c.2 else none)).length = vals.length := by
  induction vals with
  | nil => intro fs; rfl
  | cons v vs ih =>
    intro fs
    simp only [expandRun, List.filterMap_cons, if_pos rfl]
    simp [ih (fs + st)]

/-- C7: a Sequence assertion and the equivalent set of Single assertions at
steps `first_step, first_step + stride, ...` for the same register derive
identical Boundary Constraint Groups — the same group, hence the same
divisor degree (equal to the number of asserted values) and the same divisor
and combined evaluations at every sampled point. -/
theorem sequence_assertion_roundtrip {F : Type} [Field F] [DecidableEq F]
    (n r fs st : Nat) (vals : List F) :
    buildBoundaryGroup n [Assertion.sequence r fs st vals] r =
      buildBoundaryGroup n (singlesOf r fs st vals) r ∧
    (buildBoundaryGroup n [Assertion.sequence r fs st vals] r).divisorDegree =
      (buildBoundaryGroup n (singlesOf r fs st vals) r).divisorDegree ∧
    (∀ (g x : F),
      (buildBoundaryGroup n
          [Assertion.sequence r fs st vals] r).divisorEval g x =
        (buildBoundaryGroup n (singlesOf r fs st vals) r).divisorEval g x) ∧
    (∀ (g : F) (p : F → F) (x : F),
      (buildBoundaryGroup n
          [Assertion.sequence r fs st vals] r).combinedEval g p x =
        (buildBoundaryGroup n
          (singlesOf r fs st vals) r).combinedEval g p x) ∧
    (buildBoundaryGroup n
      [Assertion.sequence r fs st vals] r).divisorDegree = vals.length := by
  have key : buildBoundaryGroup n [Assertion.sequence r fs st vals] r =
      buildBoundaryGroup n (singlesOf r fs st vals) r := by
    unfold buildBoundaryGroup groupPairsFor
    rw [expandAll_sequence, expandAll_singlesOf]
  refine ⟨key, by rw [key], fun g x => by rw [key],
    fun g p x => by rw [key], ?_⟩
  show ((expandAll n [Assertion.sequence r fs st vals]).filterMap
    (fun c => if c.1 = r then some c.2 else none)).length = vals.length
  rw [expandAll_sequence]
  exact expandRun_filter_length r st vals fs

end Winterfell
